import Mathlib

/-!
Shallow embedding of the keyword-spotting (KWS) search program in `main.py`.

Modelling conventions:
* Python floats are modelled as exact rationals (`ℚ`).
* Python exceptions are modelled with `Except String`: a raised exception
  aborts the whole computation and nothing is returned.
* A CTM file is modelled as its list of lines (each a `String`); `pandas`
  data frames of records are modelled as Lean lists of structures, in order.
* `str.split()` (whitespace split) is `pySplit`; `float(s)` is `pyFloat`,
  which parses ordinary decimal literals with optional sign, fraction and
  exponent (the `inf`/`nan` spellings accepted by Python have no rational
  value and do not occur in the formats at issue).
* `range(n)` for a possibly negative bound is `pyRange`.
-/

deriving instance DecidableEq for Except

namespace KWS

/-- One word occurrence from the reference CTM file (one row of `index_df`). -/
structure WordOcc where
  file_id : String
  channel : String
  start_time : ℚ
  duration : ℚ
  word : String
  confidence : ℚ
deriving DecidableEq, Inhabited, Repr

/-- One query from the query XML file (one row of `queries_df`). -/
structure Query where
  kwid : String
  phrase : String
  words : List String
deriving DecidableEq, Inhabited, Repr

/-- One detected hit (one row of `hits_df`). -/
structure Hit where
  kwid : String
  file_id : String
  channel : String
  start_time : ℚ
  duration : ℚ
  score : ℚ
  decision : String
deriving DecidableEq, Inhabited, Repr

/-- Python `str.split()`: split on runs of whitespace, dropping empty pieces
(also subsumes the `strip()` the code applies first). -/
def pySplit (s : String) : List String :=
  (s.split Char.isWhitespace).filter (fun t => t ≠ "")

/-- Numeric value of a run of decimal digits. -/
def digitsVal (cs : List Char) : ℕ :=
  cs.foldl (fun a c => 10 * a + (c.toNat - 48)) 0

/-- Exponent digits (after an optional sign): all remaining characters must be
digits and there must be at least one. -/
def expDigits (sgn : ℤ) (u : List Char) : Option ℤ :=
  let p := u.span Char.isDigit
  if p.1 ≠ [] ∧ p.2 = [] then some (sgn * (digitsVal p.1 : ℤ)) else none

/-- Optional exponent part of a float literal: empty, or `e`/`E`, an optional
sign, and at least one digit. -/
def expPart : List Char → Option ℤ
  | [] => some 0
  | c :: t =>
    if c = 'e' ∨ c = 'E' then
      match t with
      | '+' :: u => expDigits 1 u
      | '-' :: u => expDigits (-1) u
      | u => expDigits 1 u
    else none

/-- Unsigned mantissa (digits, optional `.` and fraction digits; at least one
digit overall) followed by the optional exponent. -/
def mantAndExp (cs : List Char) : Option ℚ :=
  let ipr := cs.span Char.isDigit
  let fpr : List Char × List Char :=
    match ipr.2 with
    | '.' :: t => t.span Char.isDigit
    | r => ([], r)
  if ipr.1 = [] ∧ fpr.1 = [] then none
  else
    match expPart fpr.2 with
    | none => none
    | some e =>
      some (((digitsVal ipr.1 : ℚ) + (digitsVal fpr.1 : ℚ) / (10 : ℚ) ^ fpr.1.length)
        * (10 : ℚ) ^ e)

/-- Python `float(s)` on a whitespace-free token: `none` models a raised
`ValueError`. -/
def pyFloat (s : String) : Option ℚ :=
  match s.toList with
  | '+' :: t => mantAndExp t
  | '-' :: t => (mantAndExp t).map (fun q => -q)
  | cs => mantAndExp cs

/-- Treatment of one line of `parse_ctm`: fewer than 6 whitespace-separated fields is skipped
(`ok none`), otherwise the first 6 fields are used (the rest ignored) and an
unparsable numeric field raises (`error`). -/
def parseCtmLine (line : String) : Except String (Option WordOcc) :=
  let parts := pySplit line
  if parts.length < 6 then .ok none
  else
    match pyFloat (parts.getD 2 ""), pyFloat (parts.getD 3 ""), pyFloat (parts.getD 5 "") with
    | some st, some du, some cf =>
      .ok (some { file_id := parts.getD 0 "", channel := parts.getD 1 "",
                  start_time := st, duration := du,
                  word := parts.getD 4 "", confidence := cf })
    | _, _, _ => .error "could not convert string to float"

/-- Model of `parse_ctm` over the file lines, in order; the first raising line
aborts the whole load with nothing returned. -/
def parse_ctm : List String → Except String (List WordOcc)
  | [] => .ok []
  | l :: rest =>
    match parseCtmLine l with
    | .error e => .error e
    | .ok none => parse_ctm rest
    | .ok (some r) =>
      match parse_ctm rest with
      | .error e => .error e
      | .ok rs => .ok (r :: rs)

/-- The record `parse_ctm` produces for a line, when it produces one. -/
def lineRecord (line : String) : Option WordOcc :=
  match parseCtmLine line with
  | .ok (some r) => some r
  | _ => none

/-- One `kw` element of the query XML, as `parse_queries` loads it:
`phrase = kwtext.strip()`, `words = phrase.split()`. -/
def mkQuery (kwid kwtext : String) : Query :=
  { kwid := kwid, phrase := kwtext.trim, words := pySplit kwtext.trim }

/-- Python `range(n)` for an `int` bound: empty when `n ≤ 0`. -/
def pyRange (n : ℤ) : List ℕ :=
  List.range n.toNat

/-- Slice `index_df.iloc[i : i + L]`: the window of (up to) `L` consecutive records
starting at offset `i`. -/
def window (ref : List WordOcc) (i L : ℕ) : List WordOcc :=
  (ref.drop i).take L

/-- Projection `list(segment[...word...])` of the window. -/
def segWords (seg : List WordOcc) : List String :=
  seg.map (fun r => r.word)

/-- Series `segment[...start_time...].diff().fillna(0)[1:]`: the successive
differences of `start_time` between consecutive records of the window. -/
def succDiffs (seg : List WordOcc) : List ℚ :=
  (seg.zip seg.tail).map (fun p => p.2.start_time - p.1.start_time)

/-- Check `all(time_diffs[1:] <= 0.5)`. -/
def timeOk (seg : List WordOcc) : Bool :=
  (succDiffs seg).all (fun d => decide (d ≤ 1 / 2))

/-- Mean `segment[...confidence...].mean()` of the window confidences. -/
def meanConf (seg : List WordOcc) : ℚ :=
  (seg.map (fun r => r.confidence)).sum / (seg.length : ℚ)

/-- Assembly of the hit record for a qualifying window: `segment.iloc[0]` and
`segment.iloc[-1]` raise an `IndexError` on an empty segment. -/
def assembleHit (kwid : String) (seg : List WordOcc) : Except String Hit :=
  match seg with
  | [] => .error "single positional indexer is out-of-bounds"
  | first :: rest =>
    let lastRec := (first :: rest).getLast (List.cons_ne_nil first rest)
    .ok { kwid := kwid
          file_id := first.file_id
          channel := first.channel
          start_time := first.start_time
          duration := lastRec.start_time + lastRec.duration - first.start_time
          score := meanConf (first :: rest)
          decision := "YES" }

/-- The inner loop of `perform_kws_search` for one query, over a list of start
offsets: a window whose words equal the query words and whose time
differences pass is turned into a hit; an exception aborts everything. -/
def scanOffsets (ref : List WordOcc) (q : Query) : List ℕ → Except String (List Hit)
  | [] => .ok []
  | i :: rest =>
    let seg := window ref i q.words.length
    if segWords seg = q.words ∧ timeOk seg = true then
      match assembleHit q.kwid seg with
      | .error e => .error e
      | .ok h =>
        match scanOffsets ref q rest with
        | .error e => .error e
        | .ok hs => .ok (h :: hs)
    else scanOffsets ref q rest

/-- The per-query search: offsets `range(len(index_df) - num_words + 1)`. -/
def searchQuery (ref : List WordOcc) (q : Query) : Except String (List Hit) :=
  scanOffsets ref q (pyRange ((ref.length : ℤ) - (q.words.length : ℤ) + 1))

/-- Model of `perform_kws_search`: all queries in order, hits concatenated; an exception
in the scan of any query aborts the whole search with nothing returned. -/
def perform_kws_search (ref : List WordOcc) : List Query → Except String (List Hit)
  | [] => .ok []
  | q :: qs =>
    match searchQuery ref q with
    | .error e => .error e
    | .ok hs =>
      match perform_kws_search ref qs with
      | .error e => .error e
      | .ok hs2 => .ok (hs ++ hs2)

/-- The hit emitted for a qualifying window (total helper: defaults on the
empty window, which never qualifies for a nonempty phrase). -/
def hitAt (ref : List WordOcc) (q : Query) (i : ℕ) : Hit :=
  ((assembleHit q.kwid (window ref i q.words.length)).toOption).getD default

/-- A start offset qualifies when the window words equal the query words
and the successive start-time differences all pass the 0.5 s check. -/
def qualifiesb (ref : List WordOcc) (q : Query) (i : ℕ) : Bool :=
  decide (segWords (window ref i q.words.length) = q.words ∧
    timeOk (window ref i q.words.length) = true)

/-- Reference with three repeated tokens, giving two overlapping qualifying
windows for the two-token query `go go`. -/
def c1Ref : List WordOcc :=
  [⟨"f1", "1", 0, 1/10, "go", 1⟩, ⟨"f1", "1", 1/5, 1/10, "go", 1/2⟩,
   ⟨"f1", "1", 2/5, 1/10, "go", 1⟩]

def c1Q : Query := ⟨"Q1", "go go", ["go", "go"]⟩

/-- Scenario A reference: `go` at 0.0 s for 0.2 s with confidence 0.9, `home`
at 0.3 s for 0.2 s with confidence 0.8. -/
def c2Ref : List WordOcc :=
  [⟨"f1", "1", 0, 1/5, "go", 9/10⟩, ⟨"f1", "1", 3/10, 1/5, "home", 4/5⟩]

def c2Q : Query := ⟨"K1", "go home", ["go", "home"]⟩

/-- Reference whose records all have non-negative start times and durations
but are not sorted by time: the second record starts 10 s before the first. -/
def c3Ref : List WordOcc :=
  [⟨"f", "1", 10, 1/10, "a", 1⟩, ⟨"f", "1", 0, 1/10, "b", 1⟩]

def c3Q : Query := ⟨"K3", "a b", ["a", "b"]⟩

/-- A time-sorted reference with non-negative durations. -/
def c3wRef : List WordOcc :=
  [⟨"g", "1", 0, 1/5, "hi", 1⟩, ⟨"g", "1", 1/4, 1/5, "there", 1/2⟩]

def c3wQ : Query := ⟨"W3", "hi there", ["hi", "there"]⟩

def c3wHits : List Hit := [⟨"W3", "g", "1", 0, 9/20, 3/4, "YES"⟩]

/-- Reference with two occurrences of the single token `a`. -/
def c6Ref : List WordOcc :=
  [⟨"f1", "1", 0, 1/10, "a", 1⟩, ⟨"f1", "1", 5, 1/10, "b", 1⟩,
   ⟨"f1", "1", 20, 1/10, "a", 1/2⟩]

def c6Q : Query := ⟨"K6", "a", ["a"]⟩

/-- Two well-formed CTM lines interspersed with three malformed (< 6 field)
lines. -/
def c7Lines : List String :=
  ["f1 1 0.0 0.2 go 0.9", "bad line", "f1 1 0.3 0.2 home 0.8 extra junk",
   "x", "a b c d e"]

/-- A line with 6 fields whose start-time field is not numeric. -/
def c8Lines : List String :=
  ["f1 1 0.0 0.2 go 0.9", "f1 1 abc 0.2 home 0.8"]

/-- Reference whose two adjacent records carry different file ids and
channels. -/
def c9Ref : List WordOcc :=
  [⟨"f1", "1", 0, 1/10, "a", 1⟩, ⟨"f2", "2", 1/10, 1/10, "b", 1⟩]

def c9Q : Query := ⟨"K9", "a b", ["a", "b"]⟩

def c9Hits : List Hit := [⟨"K9", "f1", "1", 0, 1/5, 1, "YES"⟩]

def c10Q : Query := ⟨"K2", "go", ["go"]⟩

lemma hitAt_of_assembleHit {ref : List WordOcc} {q : Query} {i : ℕ} {ht : Hit}
    (h : assembleHit q.kwid (window ref i q.words.length) = .ok ht) :
    hitAt ref q i = ht := by
  simp [hitAt, h, Except.toOption]

lemma window_ne_nil_of_segWords {ref : List WordOcc} {q : Query} {i : ℕ}
    (hq : q.words ≠ []) (hw : segWords (window ref i q.words.length) = q.words) :
    window ref i q.words.length ≠ [] := by
  intro h0
  rw [h0] at hw
  exact hq hw.symm

/-- For a query with a nonempty word list, the scan over any offset list
produces exactly one hit per qualifying offset, in offset order. -/
lemma scanOffsets_ok (ref : List WordOcc) (q : Query) (hq : q.words ≠ [])
    (offs : List ℕ) :
    scanOffsets ref q offs =
      .ok ((offs.filter (qualifiesb ref q)).map (hitAt ref q)) := by
  induction offs with
  | nil => rfl
  | cons i rest ih =>
    by_cases h : segWords (window ref i q.words.length) = q.words ∧
        timeOk (window ref i q.words.length) = true
    · obtain ⟨a, s, hs⟩ := List.exists_cons_of_ne_nil
        (window_ne_nil_of_segWords hq h.1)
    -- the window is nonempty, so hit assembly succeeds
      obtain ⟨h0, hasm⟩ : ∃ h0, assembleHit q.kwid (window ref i q.words.length) =
          .ok h0 := by
        rw [hs]
        exact ⟨_, rfl⟩
      have hqb : qualifiesb ref q i = true := decide_eq_true h
      simp only [scanOffsets, if_pos h]
      rw [hasm, ih, List.filter_cons, if_pos hqb, List.map_cons,
        hitAt_of_assembleHit hasm]
    · have hqb : qualifiesb ref q i = false := decide_eq_false h
      simp only [scanOffsets, if_neg h]
      rw [ih, List.filter_cons, if_neg (by simp [hqb])]

/-- Every hit produced by the scan comes from a qualifying offset in the
scanned list, via `assembleHit` on the window at that offset. -/
lemma scanOffsets_mem {ref : List WordOcc} {q : Query} {offs : List ℕ}
    {hs : List Hit} (hok : scanOffsets ref q offs = .ok hs) :
    ∀ h ∈ hs, ∃ i ∈ offs,
      segWords (window ref i q.words.length) = q.words ∧
      timeOk (window ref i q.words.length) = true ∧
      assembleHit q.kwid (window ref i q.words.length) = .ok h := by
  induction offs generalizing hs with
  | nil =>
    simp only [scanOffsets] at hok
    cases hok
    intro h hmem
    cases hmem
  | cons i rest ih =>
    by_cases hc : segWords (window ref i q.words.length) = q.words ∧
        timeOk (window ref i q.words.length) = true
    · simp only [scanOffsets, if_pos hc] at hok
      cases hasm : assembleHit q.kwid (window ref i q.words.length) with
      | error e => rw [hasm] at hok; cases hok
      | ok h0 =>
        rw [hasm] at hok
        cases hrest : scanOffsets ref q rest with
        | error e => rw [hrest] at hok; cases hok
        | ok hs0 =>
          rw [hrest] at hok
          cases hok
          intro h hmem
          rcases List.mem_cons.mp hmem with heq | hmem0
          · exact ⟨i, List.mem_cons_self i rest, hc.1, hc.2, heq ▸ hasm⟩
          · obtain ⟨j, hj, hprops⟩ := ih hrest h hmem0
            exact ⟨j, List.mem_cons_of_mem i hj, hprops⟩
    · simp only [scanOffsets, if_neg hc] at hok
      intro h hmem
      obtain ⟨j, hj, hprops⟩ := ih hok h hmem
      exact ⟨j, List.mem_cons_of_mem i hj, hprops⟩

/-- Every hit of the whole search comes from some query in the list and some
qualifying window for it. -/
lemma perform_mem {ref : List WordOcc} {qs : List Query} {hs : List Hit}
    (hok : perform_kws_search ref qs = .ok hs) :
    ∀ h ∈ hs, ∃ q ∈ qs, ∃ i,
      segWords (window ref i q.words.length) = q.words ∧
      timeOk (window ref i q.words.length) = true ∧
      assembleHit q.kwid (window ref i q.words.length) = .ok h := by
  induction qs generalizing hs with
  | nil =>
    simp only [perform_kws_search] at hok
    cases hok
    intro h hmem
    cases hmem
  | cons q qs ih =>
    simp only [perform_kws_search] at hok
    cases hq : searchQuery ref q with
    | error e => rw [hq] at hok; cases hok
    | ok hs1 =>
      rw [hq] at hok
      cases hrest : perform_kws_search ref qs with
      | error e => rw [hrest] at hok; cases hok
      | ok hs2 =>
        rw [hrest] at hok
        cases hok
        intro h hmem
        rcases List.mem_append.mp hmem with h1 | h2
        · obtain ⟨i, _, hprops⟩ := scanOffsets_mem hq h h1
          exact ⟨q, List.mem_cons_self q qs, i, hprops⟩
        · obtain ⟨q0, hq0, i, hprops⟩ := ih hrest h h2
          exact ⟨q0, List.mem_cons_of_mem q hq0, i, hprops⟩

/-- A zero-word query makes the scan fail at the very first offset: the empty
window matches the empty word list, the time check is vacuous, and the hit
assembly then raises on the empty segment. -/
lemma scanOffsets_zero_words_error {q : Query} (hq : q.words = [])
    (ref : List WordOcc) (offs : List ℕ) (i : ℕ) :
    scanOffsets ref q (i :: offs) =
      .error "single positional indexer is out-of-bounds" := by
  have hwin : window ref i q.words.length = [] := by
    rw [hq]
    simp [window]
  simp only [scanOffsets, hwin]
  rw [if_pos ⟨by simp [segWords, hq], rfl⟩]
  rfl

/- ------------------------------------------------------------------ -/
/- Claim theorems                                                      -/
/- ------------------------------------------------------------------ -/

/-- C1: for a query phrase of length L ≥ 1 and a reference of length N, the
search emits exactly one hit per start offset in `range(N - L + 1)` whose
window matches the phrase word-for-word and whose successive start-time
differences are all ≤ 0.5 s, in offset order, and no other hits; overlapping
qualifying windows each produce their own hit. -/
theorem c1_hits_are_exactly_qualifying_windows (ref : List WordOcc) (q : Query)
    (hL : 1 ≤ q.words.length) :
    perform_kws_search ref [q] =
      .ok (((pyRange ((ref.length : ℤ) - (q.words.length : ℤ) + 1)).filter
        (qualifiesb ref q)).map (hitAt ref q)) := by
  have hq : q.words ≠ [] := by
    intro h0
    rw [h0] at hL
    exact absurd hL (by simp)
  simp [perform_kws_search, searchQuery, scanOffsets_ok ref q hq]

theorem c1_witness :
    1 ≤ c1Q.words.length ∧
    perform_kws_search c1Ref [c1Q] =
      .ok [⟨"Q1", "f1", "1", 0, 3/10, 3/4, "YES"⟩,
           ⟨"Q1", "f1", "1", 1/5, 3/10, 3/4, "YES"⟩] :=
  ⟨by decide,
   (c1_hits_are_exactly_qualifying_windows c1Ref c1Q (by decide)).trans
     (by with_unfolding_all rfl)⟩

/-- C2: on the Scenario A reference, the query `go home` yields exactly one
hit with start_time 0.0, duration 0.5, score 0.85 and decision YES. -/
theorem c2_scenario_a :
    perform_kws_search c2Ref [c2Q] =
      .ok [{ kwid := "K1", file_id := "f1", channel := "1", start_time := 0,
             duration := 1/2, score := 17/20, decision := "YES" }] := by
  with_unfolding_all decide

/-- C4: contrary to the specification, a query with zero words is not
harmless: for every reference (even the empty one) the search raises an
`IndexError` (here: the error of `assembleHit` on the empty segment), because
the empty window at offset 0 matches the empty word list and hit assembly
then indexes into the empty segment. -/
theorem c4_zero_word_query_raises (ref : List WordOcc) (kwid phrase : String) :
    perform_kws_search ref [{ kwid := kwid, phrase := phrase, words := [] }] =
      .error "single positional indexer is out-of-bounds" := by
  have hr : pyRange ((ref.length : ℤ) -
      ((List.length ([] : List String)) : ℤ) + 1) = List.range (ref.length + 1) := by
    have ht : ((ref.length : ℤ) - ((List.length ([] : List String)) : ℤ) + 1).toNat
        = ref.length + 1 := by
      simp
    rw [pyRange, ht]
  simp only [perform_kws_search, searchQuery, hr, List.range_succ_eq_map]
  rw [scanOffsets_zero_words_error (q := { kwid := kwid, phrase := phrase, words := [] }) rfl]

/-- C10: a query whose phrase is longer than the whole reference sequence
produces no offsets at all, hence no error and zero hits. -/
theorem c10_long_phrase_no_hits (ref : List WordOcc) (q : Query)
    (_h1 : 1 ≤ q.words.length) (hN : ref.length < q.words.length) :
    perform_kws_search ref [q] = .ok [] := by
  have hr : pyRange ((ref.length : ℤ) - (q.words.length : ℤ) + 1) = [] := by
    rw [pyRange, Int.toNat_of_nonpos (by omega)]
    rfl
  simp [perform_kws_search, searchQuery, hr, scanOffsets]

theorem c10_witness :
    1 ≤ c10Q.words.length ∧ ([] : List WordOcc).length < c10Q.words.length ∧
    perform_kws_search [] [c10Q] = .ok [] :=
  ⟨by decide, by decide,
   c10_long_phrase_no_hits [] c10Q (by decide) (by decide)⟩

/-- A successful hit assembly exposes the window as nonempty and the hit as
built from the first and last records of the window. -/
lemma assembleHit_ok_shape {k : String} {seg : List WordOcc} {h : Hit}
    (hok : assembleHit k seg = .ok h) :
    ∃ a s, seg = a :: s ∧
      h = { kwid := k
            file_id := a.file_id
            channel := a.channel
            start_time := a.start_time
            duration := ((a :: s).getLast (List.cons_ne_nil a s)).start_time +
              ((a :: s).getLast (List.cons_ne_nil a s)).duration - a.start_time
            score := meanConf (a :: s)
            decision := "YES" } := by
  cases seg with
  | nil => cases hok
  | cons a s =>
    refine ⟨a, s, rfl, ?_⟩
    simp only [assembleHit] at hok
    cases hok
    rfl

/-- Every window is a sublist of the reference sequence. -/
lemma window_sublist (ref : List WordOcc) (i L : ℕ) :
    List.Sublist (window ref i L) ref :=
  (List.take_sublist _ _).trans (List.drop_sublist _ _)

/-- In a list whose start times are pairwise non-decreasing, the head starts
no later than the last element. -/
lemma head_start_le_getLast_start {a : WordOcc} {s : List WordOcc}
    (hp : (a :: s).Pairwise (fun x y => x.start_time ≤ y.start_time)) :
    a.start_time ≤ ((a :: s).getLast (List.cons_ne_nil a s)).start_time := by
  have hmem := List.getLast_mem (List.cons_ne_nil a s)
  rcases List.mem_cons.mp hmem with heq | hmem0
  · rw [heq]
  · exact (List.pairwise_cons.mp hp).1 _ hmem0

/-- C3 fails as stated: a reference whose records all have non-negative start
times and durations, but whose order is not sorted by time, produces a hit
with strictly negative duration (the time check only bounds differences from
above, so a backwards jump passes it). -/
theorem c3_counterexample_negative_duration :
    (∀ r ∈ c3Ref, 0 ≤ r.start_time ∧ 0 ≤ r.duration) ∧
    ∃ h, perform_kws_search c3Ref [c3Q] = .ok [h] ∧ h.duration < 0 := by
  refine ⟨by with_unfolding_all decide, ⟨"K3", "f", "1", 10, -(99/10), 1, "YES"⟩,
    by with_unfolding_all decide, by with_unfolding_all decide⟩

/-- C3 (amended): if the reference sequence is sorted by `start_time`
(non-decreasing in sequence order) and all record durations are non-negative,
then every emitted hit has non-negative duration. -/
theorem c3_duration_nonneg_of_sorted (ref : List WordOcc) (qs : List Query)
    (hs : List Hit)
    (hsort : ref.Pairwise (fun x y => x.start_time ≤ y.start_time))
    (hdur : ∀ r ∈ ref, 0 ≤ r.duration)
    (hok : perform_kws_search ref qs = .ok hs) :
    ∀ h ∈ hs, 0 ≤ h.duration := by
  intro h hmem
  obtain ⟨q, _, i, _, _, hasm⟩ := perform_mem hok h hmem
  obtain ⟨a, s, hseg, hh⟩ := assembleHit_ok_shape hasm
  have hsub : List.Sublist (a :: s) ref := hseg ▸ window_sublist ref i q.words.length
  have hp : (a :: s).Pairwise (fun x y => x.start_time ≤ y.start_time) :=
    hsort.sublist hsub
  have hle := head_start_le_getLast_start hp
  have hlast : ((a :: s).getLast (List.cons_ne_nil a s)) ∈ ref :=
    hsub.subset (List.getLast_mem (List.cons_ne_nil a s))
  have hd := hdur _ hlast
  rw [hh]
  simp only
  linarith

theorem c3_witness : 0 ≤ (⟨"W3", "g", "1", 0, 9/20, 3/4, "YES"⟩ : Hit).duration :=
  c3_duration_nonneg_of_sorted c3wRef [c3wQ] c3wHits
    (by with_unfolding_all decide) (by with_unfolding_all decide)
    (by with_unfolding_all decide)
    (⟨"W3", "g", "1", 0, 9/20, 3/4, "YES"⟩ : Hit) (by with_unfolding_all decide)

/-- The time check is vacuously true on windows of at most one record. -/
lemma timeOk_of_short (seg : List WordOcc) (hlen : seg.length ≤ 1) :
    timeOk seg = true := by
  cases seg with
  | nil => rfl
  | cons x t =>
    cases t with
    | nil => rfl
    | cons y u => simp at hlen

lemma filter_map_succ_length (p : ℕ → Bool) :
    ∀ (l : List ℕ),
      ((l.map Nat.succ).filter p).length = (l.filter (fun i => p (i + 1))).length
  | [] => rfl
  | a :: l => by
    simp only [List.map_cons, List.filter_cons]
    by_cases h : p (a + 1) = true
    · rw [if_pos h, if_pos h]
      simp [filter_map_succ_length p l]
    · rw [if_neg h, if_neg h]
      exact filter_map_succ_length p l

/-- For a single-token query, the number of qualifying offsets equals the
number of records whose word is exactly the token. -/
lemma count_single_token (q : Query) (w : String) (hw : q.words = [w]) :
    ∀ (ref : List WordOcc),
      ((List.range ref.length).filter (qualifiesb ref q)).length
        = (ref.filter (fun r => decide (r.word = w))).length
  | [] => rfl
  | a :: ref => by
    have key : qualifiesb (a :: ref) q 0 = decide (a.word = w) := by
      rw [qualifiesb, hw]
      have hwin : window (a :: ref) 0 ([w].length) = [a] := rfl
      rw [hwin]
      rw [decide_eq_decide]
      simp [segWords, timeOk, succDiffs]
    have hshift : (fun i => qualifiesb (a :: ref) q (i + 1)) = qualifiesb ref q := rfl
    rw [List.length_cons, List.range_succ_eq_map, List.filter_cons,
      List.filter_cons, key]
    by_cases h : a.word = w
    · rw [if_pos (decide_eq_true h), if_pos (decide_eq_true h)]
      simp only [List.length_cons]
      rw [filter_map_succ_length, hshift, count_single_token q w hw ref]
    · have hdec : ¬(decide (a.word = w) = true) := by simpa using h
      rw [if_neg hdec, if_neg hdec, filter_map_succ_length, hshift,
        count_single_token q w hw ref]

/-- C6: for a single-token query the temporal-contiguity check is vacuous
(true on every window of at most one record), and the number of emitted hits
equals the number of reference records whose word equals the query token. -/
theorem c6_single_token_hit_count (ref : List WordOcc) (q : Query) (w : String)
    (hw : q.words = [w]) :
    (∀ seg : List WordOcc, seg.length ≤ 1 → timeOk seg = true) ∧
    ∃ hs, perform_kws_search ref [q] = .ok hs ∧
      hs.length = (ref.filter (fun r => decide (r.word = w))).length := by
  refine ⟨timeOk_of_short, ?_⟩
  have hq : q.words ≠ [] := by
    rw [hw]
    exact List.cons_ne_nil w []
  have hL : q.words.length = 1 := by rw [hw]; rfl
  have hrange : pyRange ((ref.length : ℤ) - (q.words.length : ℤ) + 1)
      = List.range ref.length := by
    rw [hL, pyRange]
    simp
  refine ⟨((pyRange ((ref.length : ℤ) - (q.words.length : ℤ) + 1)).filter
      (qualifiesb ref q)).map (hitAt ref q), ?_, ?_⟩
  · simp [perform_kws_search, searchQuery, scanOffsets_ok ref q hq]
  · rw [hrange, List.length_map, count_single_token q w hw ref]

theorem c6_witness :
    (∀ seg : List WordOcc, seg.length ≤ 1 → timeOk seg = true) ∧
    ∃ hs, perform_kws_search c6Ref [c6Q] = .ok hs ∧
      hs.length = (c6Ref.filter (fun r => decide (r.word = "a"))).length :=
  c6_single_token_hit_count c6Ref c6Q "a" rfl

/-- C9: every emitted hit carries the `file_id`, `channel` (and start time) of
the first record of its matched window: the window at the qualifying offset
matches the query words in order, passes the time check, assembles into
exactly this hit, and the hit fields equal those of the head of that window —
with no constraint keeping the window within one file or channel. -/
theorem c9_hit_ids_from_first_window_record (ref : List WordOcc)
    (qs : List Query) (hs : List Hit)
    (hok : perform_kws_search ref qs = .ok hs) :
    ∀ h ∈ hs, ∃ q ∈ qs, ∃ i a s,
      window ref i q.words.length = a :: s ∧
      segWords (a :: s) = q.words ∧
      timeOk (a :: s) = true ∧
      assembleHit q.kwid (a :: s) = .ok h ∧
      h.file_id = a.file_id ∧ h.channel = a.channel ∧
      h.start_time = a.start_time := by
  intro h hmem
  obtain ⟨q, hq, i, hw, ht, hasm⟩ := perform_mem hok h hmem
  obtain ⟨a, s, hseg, hh⟩ := assembleHit_ok_shape hasm
  rw [hseg] at hw ht hasm
  exact ⟨q, hq, i, a, s, hseg, hw, ht, hasm, by rw [hh], by rw [hh], by rw [hh]⟩

theorem c9_witness :
    ∃ q ∈ [c9Q], ∃ i a s,
      window c9Ref i q.words.length = a :: s ∧
      segWords (a :: s) = q.words ∧
      timeOk (a :: s) = true ∧
      assembleHit q.kwid (a :: s) = .ok (⟨"K9", "f1", "1", 0, 1/5, 1, "YES"⟩ : Hit) ∧
      (⟨"K9", "f1", "1", 0, 1/5, 1, "YES"⟩ : Hit).file_id = a.file_id ∧
      (⟨"K9", "f1", "1", 0, 1/5, 1, "YES"⟩ : Hit).channel = a.channel ∧
      (⟨"K9", "f1", "1", 0, 1/5, 1, "YES"⟩ : Hit).start_time = a.start_time :=
  c9_hit_ids_from_first_window_record c9Ref [c9Q] c9Hits
    (by with_unfolding_all decide)
    (⟨"K9", "f1", "1", 0, 1/5, 1, "YES"⟩ : Hit) (by with_unfolding_all decide)

/-- A line with fewer than 6 fields is skipped without producing a record. -/
lemma parseCtmLine_short {l : String} (h6 : (pySplit l).length < 6) :
    parseCtmLine l = .ok none := by
  simp only [parseCtmLine]
  rw [if_pos h6]

/-- On a line whose numeric fields all parse, `parseCtmLine` succeeds and
produces exactly the record of the line. -/
lemma parseCtmLine_good {l : String}
    (hg : 6 ≤ (pySplit l).length →
      (pyFloat ((pySplit l).getD 2 "")).isSome = true ∧
      (pyFloat ((pySplit l).getD 3 "")).isSome = true ∧
      (pyFloat ((pySplit l).getD 5 "")).isSome = true) :
    parseCtmLine l = .ok (lineRecord l) := by
  by_cases h6 : (pySplit l).length < 6
  · rw [parseCtmLine_short h6, lineRecord, parseCtmLine_short h6]
  · obtain ⟨h2, h3, h5⟩ := hg (le_of_not_lt h6)
    obtain ⟨st, hst⟩ := Option.isSome_iff_exists.mp h2
    obtain ⟨du, hdu⟩ := Option.isSome_iff_exists.mp h3
    obtain ⟨cf, hcf⟩ := Option.isSome_iff_exists.mp h5
    have hp : parseCtmLine l =
        .ok (some { file_id := (pySplit l).getD 0 "", channel := (pySplit l).getD 1 "",
                    start_time := st, duration := du,
                    word := (pySplit l).getD 4 "", confidence := cf }) := by
      simp only [parseCtmLine]
      rw [if_neg h6, hst, hdu, hcf]
    rw [hp, lineRecord, hp]

/-- C7 (loader success case), the structural half: when every line with at
least 6 fields has parsable numeric fields, the loader succeeds and returns
exactly one record per such line, in input order, skipping shorter lines. -/
lemma parse_ctm_good : ∀ (lines : List String),
    (∀ l ∈ lines, 6 ≤ (pySplit l).length →
      (pyFloat ((pySplit l).getD 2 "")).isSome = true ∧
      (pyFloat ((pySplit l).getD 3 "")).isSome = true ∧
      (pyFloat ((pySplit l).getD 5 "")).isSome = true) →
    parse_ctm lines = .ok (lines.filterMap lineRecord)
  | [], _ => rfl
  | l :: rest, hg => by
    have hl := parseCtmLine_good (hg l (List.mem_cons_self l rest))
    have ih := parse_ctm_good rest (fun x hx => hg x (List.mem_cons_of_mem l hx))
    simp only [parse_ctm]
    rw [hl, List.filterMap_cons]
    cases hrec : lineRecord l with
    | none => exact ih
    | some r => rw [ih]

/-- Under the same parsability condition, a line yields a record exactly when
it has at least 6 fields. -/
lemma lineRecord_isSome_iff {l : String}
    (hg : 6 ≤ (pySplit l).length →
      (pyFloat ((pySplit l).getD 2 "")).isSome = true ∧
      (pyFloat ((pySplit l).getD 3 "")).isSome = true ∧
      (pyFloat ((pySplit l).getD 5 "")).isSome = true) :
    (lineRecord l).isSome = decide (6 ≤ (pySplit l).length) := by
  by_cases h6 : (pySplit l).length < 6
  · rw [lineRecord, parseCtmLine_short h6]
    simp
    omega
  · obtain ⟨h2, h3, h5⟩ := hg (le_of_not_lt h6)
    obtain ⟨st, hst⟩ := Option.isSome_iff_exists.mp h2
    obtain ⟨du, hdu⟩ := Option.isSome_iff_exists.mp h3
    obtain ⟨cf, hcf⟩ := Option.isSome_iff_exists.mp h5
    have hp : parseCtmLine l =
        .ok (some { file_id := (pySplit l).getD 0 "", channel := (pySplit l).getD 1 "",
                    start_time := st, duration := du,
                    word := (pySplit l).getD 4 "", confidence := cf }) := by
      simp only [parseCtmLine]
      rw [if_neg h6, hst, hdu, hcf]
    rw [lineRecord, hp]
    simp
    omega

lemma filterMap_length_countP {α β : Type} (f : α → Option β) (p : α → Bool) :
    ∀ (l : List α), (∀ x ∈ l, (f x).isSome = p x) →
      (l.filterMap f).length = l.countP p
  | [], _ => rfl
  | a :: l, h => by
    have ha := h a (List.mem_cons_self a l)
    have ih := filterMap_length_countP f p l (fun x hx => h x (List.mem_cons_of_mem a hx))
    rw [List.filterMap_cons, List.countP_cons]
    cases hfa : f a with
    | none =>
      rw [hfa] at ha
      simp only [Option.isSome_none] at ha
      rw [ih, ← ha]
      simp
    | some b =>
      rw [hfa] at ha
      simp only [Option.isSome_some] at ha
      rw [List.length_cons, ih, ← ha]
      simp

/-- C7: when the numeric fields of every line with at least 6 fields parse,
`parse_ctm` raises
nothing, returns exactly one record per line with at least 6 fields (built
from the first 6 fields, in input order), and silently skips every line with
fewer than 6 fields. -/
theorem c7_loader_skips_short_lines (lines : List String)
    (hg : ∀ l ∈ lines, 6 ≤ (pySplit l).length →
      (pyFloat ((pySplit l).getD 2 "")).isSome = true ∧
      (pyFloat ((pySplit l).getD 3 "")).isSome = true ∧
      (pyFloat ((pySplit l).getD 5 "")).isSome = true) :
    parse_ctm lines = .ok (lines.filterMap lineRecord) ∧
    (lines.filterMap lineRecord).length =
      lines.countP (fun l => decide (6 ≤ (pySplit l).length)) :=
  ⟨parse_ctm_good lines hg,
   filterMap_length_countP lineRecord _ lines
     (fun l hl => lineRecord_isSome_iff (hg l hl))⟩

theorem c7_witness :
    (parse_ctm c7Lines = .ok (c7Lines.filterMap lineRecord) ∧
     (c7Lines.filterMap lineRecord).length =
       c7Lines.countP (fun l => decide (6 ≤ (pySplit l).length))) ∧
    (c7Lines.filterMap lineRecord).length = 2 :=
  ⟨c7_loader_skips_short_lines c7Lines (by with_unfolding_all decide),
   by with_unfolding_all decide⟩

/-- A line with at least 6 fields one of whose numeric fields does not parse
makes `parseCtmLine` raise. -/
lemma parseCtmLine_error_of_bad {l : String} (h6 : 6 ≤ (pySplit l).length)
    (hbad : pyFloat ((pySplit l).getD 2 "") = none ∨
      pyFloat ((pySplit l).getD 3 "") = none ∨
      pyFloat ((pySplit l).getD 5 "") = none) :
    parseCtmLine l = .error "could not convert string to float" := by
  simp only [parseCtmLine]
  rw [if_neg (not_lt.mpr h6)]
  rcases hbad with h | h | h
  · rw [h]
  · cases hA : pyFloat ((pySplit l).getD 2 "") with
    | none => rfl
    | some st => rw [h]
  · cases hA : pyFloat ((pySplit l).getD 2 "") with
    | none => rfl
    | some st =>
      cases hB : pyFloat ((pySplit l).getD 3 "") with
      | none => rfl
      | some du => rw [h]

/-- C8: if any line of the input has at least 6 fields but an unparsable
start-time, duration or confidence field, the whole load fails with an error
and no record sequence is returned. -/
theorem c8_unparsable_numeric_is_fatal : ∀ (lines : List String),
    (∃ l ∈ lines, 6 ≤ (pySplit l).length ∧
      (pyFloat ((pySplit l).getD 2 "") = none ∨
       pyFloat ((pySplit l).getD 3 "") = none ∨
       pyFloat ((pySplit l).getD 5 "") = none)) →
    ∃ e, parse_ctm lines = .error e
  | [], h => by
    obtain ⟨l, hl, -⟩ := h
    cases hl
  | l :: rest, h => by
    obtain ⟨l0, hl0, h6, hbad⟩ := h
    rcases List.mem_cons.mp hl0 with rfl | hmem
    · refine ⟨"could not convert string to float", ?_⟩
      simp only [parse_ctm]
      rw [parseCtmLine_error_of_bad h6 hbad]
    · obtain ⟨e, he⟩ := c8_unparsable_numeric_is_fatal rest ⟨l0, hmem, h6, hbad⟩
      simp only [parse_ctm]
      cases hl : parseCtmLine l with
      | error e0 => exact ⟨e0, rfl⟩
      | ok o =>
        cases o with
        | none => exact ⟨e, he⟩
        | some r =>
          rw [he]
          exact ⟨e, rfl⟩

theorem c8_witness :
    (∃ l ∈ c8Lines, 6 ≤ (pySplit l).length ∧
      (pyFloat ((pySplit l).getD 2 "") = none ∨
       pyFloat ((pySplit l).getD 3 "") = none ∨
       pyFloat ((pySplit l).getD 5 "") = none)) ∧
    ∃ e, parse_ctm c8Lines = .error e :=
  ⟨by with_unfolding_all decide,
   c8_unparsable_numeric_is_fatal c8Lines (by with_unfolding_all decide)⟩

end KWS
